import Mathlib

/-!
Verification of the leaderboard persistence and ranking engine of the
swolecast-combine-guessoff repository.

The definitions below are a shallow embedding of the TypeScript sources:

* `src/api/_lib/leaderboard.ts` — validators (`sanitizePlayerName`,
  `sanitizeScore`), the closed game-mode registry (`VALID_GAME_MODES`,
  `isStoredGameMode`, `isReadGameMode`), `createEntry`, `parseStoredEntry`,
  `MAX_LEADERBOARD_ENTRIES`.
* `src/api/leaderboard-submit.ts` — the submit handler: validate, read the
  blob, append the new entry, group by mode, sort each group by score
  descending (JavaScript `Array.prototype.sort` is stable), keep the top 50
  per mode, save the blob, and compute the returned rank with
  `findIndex(...) + 1`; also the KV variant `trimSortedSet`.
* `src/api/leaderboard-get.ts` — the query handler: validate the mode,
  read the blob (degrading to an empty list on any failure), filter,
  sort by score descending, take the top 50, and attach 1-based ranks.
* `src/api/_lib/blob-store.ts` — `getLeaderboardData` failure handling and
  the unconditional overwrite in `saveLeaderboardData`.

Machine-level JavaScript values are modelled explicitly: `JsNumber` has
`nan` and the two infinities beside finite rationals, and `JsVal` models the
`unknown` inputs reaching the sanitizers. Entry ids are modelled as naturals
standing for the opaque unique id strings, and the submission instant
(`Date.now()` and the ISO `date` string, which increase together within a
run) is modelled as a natural-number timestamp.
-/

set_option maxRecDepth 10000

namespace Swolecast

/-- Model of a JavaScript number: `NaN`, the infinities, or a finite value
(modelled as a rational). -/
inductive JsNumber where
  | nan
  | posInf
  | negInf
  | finite (q : ℚ)
deriving DecidableEq

/-- Model of an `unknown` JavaScript value as it reaches the sanitizers:
a string, a number, or anything else (null, undefined, booleans, objects),
which the sanitizers uniformly reject via their `typeof` checks. -/
inductive JsVal where
  | vstr (s : String)
  | vnum (n : JsNumber)
  | vother
deriving DecidableEq

/-- Whitespace as recognised by JavaScript `String.prototype.trim`
(the characters relevant to the model). -/
def isJsWhitespace (c : Char) : Bool :=
  c = ' ' || c = '\t' || c = '\n' || c = '\r' || c = '\x0b' || c = '\x0c'

/-- Trim of a character list: drop whitespace from both ends. -/
def jsTrimList (s : List Char) : List Char :=
  ((s.dropWhile isJsWhitespace).reverse.dropWhile isJsWhitespace).reverse

/-- Model of JavaScript `value.trim()`. -/
def jsTrim (s : String) : String :=
  String.mk (jsTrimList s.data)

/-- Model of JavaScript `Math.round`: round half towards positive infinity,
that is `⌊x + 1/2⌋`. With `q = num/den` this equals the integer floor
division `fdiv(2*num + den, 2*den)`, which is the form used here so that the
function evaluates by kernel reduction; the theorem `jsRound_eq_floor` below
proves it equal to `⌊q + 1/2⌋`. -/
def jsRound (q : ℚ) : Int :=
  Int.fdiv (2 * q.num + (q.den : Int)) (2 * (q.den : Int))

/-- The rational 9/2 in normal form, used by a witness. -/
def nineHalves : ℚ := ⟨9, 2, by decide, by decide⟩

/-- Embedding of `sanitizePlayerName` (src/api/_lib/leaderboard.ts):
reject non-strings, trim, reject the empty result (falsy) and results longer
than 20 characters, otherwise return the trimmed name. -/
def sanitizePlayerName (value : JsVal) : Option String :=
  match value with
  | .vstr s =>
    let trimmed := jsTrim s
    if trimmed = "" || trimmed.length > 20 then none else some trimmed
  | _ => none

/-- Embedding of `sanitizeScore` (src/api/_lib/leaderboard.ts): reject
non-numbers and non-finite numbers (`Number.isFinite` is false on `NaN` and
the infinities), otherwise return `Math.max(0, Math.round(value))`. -/
def sanitizeScore (value : JsVal) : Option Int :=
  match value with
  | .vnum (.finite q) => some (max 0 (jsRound q))
  | _ => none

/-- Embedding of `VALID_GAME_MODES` (src/api/_lib/leaderboard.ts). -/
def VALID_GAME_MODES : List String :=
  ["speedsort", "benchsort", "draftsort", "schoolmatch", "quick", "endless",
   "positionchallenge"]

/-- Embedding of `MAX_LEADERBOARD_ENTRIES` (src/api/_lib/leaderboard.ts). -/
def MAX_LEADERBOARD_ENTRIES : Nat := 50

/-- Embedding of `isStoredGameMode`: membership in the closed registry,
by exact (case-sensitive) string equality. -/
def isStoredGameMode (value : String) : Bool :=
  VALID_GAME_MODES.contains value

/-- Embedding of `isReadGameMode`: the synthetic aggregate mode `all`, or a
stored mode. -/
def isReadGameMode (value : String) : Bool :=
  value = "all" || isStoredGameMode value

/-- Model of `StoredLeaderboardEntry` (src/api/_lib/leaderboard.ts). The
opaque unique id string is modelled as a natural number, and the submission
instant (`Date.now()` and the ISO `date` string, which increase together
within one run) as a natural-number `timestamp`. Scores are the integers
produced by `sanitizeScore`. -/
structure LBEntry where
  id : Nat
  playerName : String
  gameMode : String
  score : Int
  timestamp : Nat
deriving DecidableEq, Repr

/-- Model of `LeaderboardData` (src/api/_lib/leaderboard.ts): the content of
the single `leaderboard.json` blob. -/
structure LeaderboardData where
  entries : List LBEntry
deriving DecidableEq, Repr

/-- Embedding of `createEntry` (src/api/_lib/leaderboard.ts): builds the
stored entry from the sanitized fields; the fresh id and the current instant
are inputs of the model. -/
def createEntry (playerName gameMode : String) (score : Int) (id timestamp : Nat) :
    LBEntry :=
  { id := id, playerName := playerName, gameMode := gameMode, score := score,
    timestamp := timestamp }

/-- One step of the stable sort used to model the JavaScript call
`entries.sort((a, b) => b.score - a.score)`: the element `x` is placed after
every already-placed element whose score is at least `x.score`
(JavaScript `Array.prototype.sort` is stable, so ties keep their original
relative order). -/
def insertByScoreDesc (x : LBEntry) : List LBEntry → List LBEntry
  | [] => [x]
  | y :: ys => if x.score ≤ y.score then y :: insertByScoreDesc x ys else x :: y :: ys

/-- Model of the JavaScript call `entries.sort((a, b) => b.score - a.score)`:
stable sort by score descending, inserting the elements left to right. -/
def sortByScoreDesc (l : List LBEntry) : List LBEntry :=
  l.foldl (fun acc x => insertByScoreDesc x acc) []

/-- One step of the `byMode` grouping loop in the submit handler
(src/api/leaderboard-submit.ts): append the entry to the bucket of its mode,
creating the bucket at the end on first sight (JavaScript `Map` iterates in
key-insertion order). -/
def byModeInsert (m : List (String × List LBEntry)) (e : LBEntry) :
    List (String × List LBEntry) :=
  if m.any (fun p => p.1 = e.gameMode) then
    m.map (fun p => if p.1 = e.gameMode then (p.1, p.2 ++ [e]) else p)
  else m ++ [(e.gameMode, [e])]

/-- The `byMode` map of the submit handler, as its insertion-ordered list of
buckets. -/
def byMode (entries : List LBEntry) : List (String × List LBEntry) :=
  entries.foldl byModeInsert []

/-- Embedding of the trim loop of the submit handler: for each bucket, sort
by score descending and keep the first `MAX_LEADERBOARD_ENTRIES`, then
concatenate the buckets in map order. -/
def trimByMode (entries : List LBEntry) : List LBEntry :=
  (byMode entries).foldl
    (fun acc p => acc ++ (sortByScoreDesc p.2).take MAX_LEADERBOARD_ENTRIES) []

/-- The data written back by one submit: the previous entries with the new
entry pushed, grouped, sorted and trimmed per mode. -/
def submitStep (data : List LBEntry) (e : LBEntry) : List LBEntry :=
  trimByMode (data ++ [e])

/-- Model of JavaScript `Array.prototype.findIndex`: the index of the first
match, and `-1` when there is none. -/
def jsFindIndex (p : α → Bool) (l : List α) : Int :=
  match l.findIdx? p with
  | some i => (i : Int)
  | none => -1

/-- Embedding of the rank computation of the submit handler
(src/api/leaderboard-submit.ts): filter the written data to the submitted
mode, sort by score descending, and return `findIndex(id) + 1`. -/
def submitRank (trimmed : List LBEntry) (gameMode : String) (entryId : Nat) : Int :=
  jsFindIndex (fun e => e.id = entryId)
    (sortByScoreDesc (trimmed.filter (fun e => e.gameMode = gameMode))) + 1

/-- The request body of the submit handler, before validation. -/
structure SubmitBody where
  playerName : JsVal
  gameMode : JsVal
  score : JsVal

/-- Response of the submit handler: a 400 validation failure, or the 200
success payload `{success: true, rank, entry}`. -/
inductive SubmitResponse where
  | badRequest (error : String)
  | success (rank : Int) (entry : LBEntry)
deriving DecidableEq, Repr

/-- Embedding of the submit handler (src/api/leaderboard-submit.ts), after
the method check: validate name, mode and score in source order, then build
the entry, push, trim per mode, and answer with the computed rank. The store
the handler read is an input and the data it writes back is returned
alongside the response; the fresh id and the current instant are inputs. -/
def submitHandler (body : Option SubmitBody) (store : LeaderboardData)
    (id timestamp : Nat) : LeaderboardData × SubmitResponse :=
  match body with
  | none => (store, .badRequest "Missing body")
  | some b =>
    match sanitizePlayerName b.playerName with
    | none => (store, .badRequest "Invalid playerName (1-20 chars)")
    | some playerName =>
      let gameMode := match b.gameMode with | .vstr s => s | _ => ""
      if isStoredGameMode gameMode then
        match sanitizeScore b.score with
        | none => (store, .badRequest "Invalid score")
        | some score =>
          let entry := createEntry playerName gameMode score id timestamp
          let trimmed := submitStep store.entries entry
          let rank := submitRank trimmed gameMode entry.id
          (⟨trimmed⟩, .success rank entry)
      else (store, .badRequest "Invalid gameMode")

/-- Row of the query response: `{playerName, score, date, gameMode, rank}`. -/
structure ScoreRow where
  playerName : String
  score : Int
  date : Nat
  gameMode : String
  rank : Nat
deriving DecidableEq, Repr

/-- Embedding of the view computation of the query handler
(src/api/leaderboard-get.ts): filter to the mode (everything for `all`),
sort by score descending, take the top 50, and attach `rank = index + 1`. -/
def queryScores (entries : List LBEntry) (mode : String) : List ScoreRow :=
  let filtered := if mode = "all" then entries
                  else entries.filter (fun e => e.gameMode = mode)
  let top := (sortByScoreDesc filtered).take 50
  top.enum.map (fun p =>
    { playerName := p.2.playerName, score := p.2.score, date := p.2.timestamp,
      gameMode := p.2.gameMode, rank := p.1 + 1 })

/-- Outcome of the blob read performed by `getLeaderboardData`: the listing
threw, the blob is absent, the download response was not ok, the body failed
to parse as JSON, or the stored data was obtained. -/
inductive FetchOutcome where
  | listThrew
  | blobMissing
  | fetchNotOk
  | bodyThrew
  | ok (data : LeaderboardData)
deriving DecidableEq, Repr

/-- Embedding of `getLeaderboardData` (src/api/_lib/blob-store.ts and the
local copy in src/api/leaderboard-get.ts): every failure path — a thrown
listing, a missing blob, a failed download, an unparsable body — degrades to
`{entries: []}`; only a successful read returns stored data. -/
def getLeaderboardData : FetchOutcome → LeaderboardData
  | .ok d => d
  | _ => ⟨[]⟩

/-- Query-string parameters reaching the query handler. The `limit` field is
carried by the request but the handler never reads it. -/
structure QueryParams where
  mode : Option String
  limit : Option Nat
deriving DecidableEq, Repr

/-- Response of the query handler: a 400 validation failure or the 200
payload `{scores}`. -/
inductive QueryResponse where
  | badRequest (error : String)
  | ok (scores : List ScoreRow)
deriving DecidableEq, Repr

/-- The mode the query handler works with: `rawMode || 'all'` turns an
absent or empty (falsy) mode parameter into `all`. -/
def effectiveQueryMode (rawMode : Option String) : String :=
  match rawMode with
  | some m => if m = "" then "all" else m
  | none => "all"

/-- Embedding of the query handler (src/api/leaderboard-get.ts), after the
method check: default the mode (`rawMode || 'all'`), reject modes outside
the registry before touching the store, otherwise read the blob and compute
the view. The `limit` parameter of the request is not consulted anywhere.
A repeated query parameter (the array case) is modelled by its first
element, which is exactly what the handler takes. -/
def queryHandler (params : QueryParams) (fetch : FetchOutcome) : QueryResponse :=
  let mode := effectiveQueryMode params.mode
  if isReadGameMode mode then
    .ok (queryScores (getLeaderboardData fetch).entries mode)
  else .badRequest "Invalid mode"

/-- Embedding of `trimSortedSet` (KV variant of the submit handler): the
sorted set is modelled as its rank-ordered member list, lowest score first.
When `zcard` exceeds `MAX_LEADERBOARD_ENTRIES`, ranks `0` through
`total - MAX_LEADERBOARD_ENTRIES - 1` are removed, which drops the
`total - MAX_LEADERBOARD_ENTRIES` lowest members. -/
def trimSortedSet (zset : List α) : List α :=
  if zset.length ≤ MAX_LEADERBOARD_ENTRIES then zset
  else zset.drop (zset.length - MAX_LEADERBOARD_ENTRIES)

/-- Embedding of `saveLeaderboardData` (src/api/_lib/blob-store.ts and the
local copy in src/api/leaderboard-submit.ts): `put` with `allowOverwrite`
replaces the single `leaderboard.json` blob with the given data, without
consulting the current blob state in any way, and always succeeds. -/
def saveLeaderboardData (_current : Option LeaderboardData)
    (data : LeaderboardData) : Option LeaderboardData :=
  some data

/-- Model of a JSON value, as produced by `JSON.parse`. -/
inductive Json where
  | null
  | bool (b : Bool)
  | num (q : ℚ)
  | str (s : String)
  | arr (elems : List Json)
  | obj (fields : List (String × Json))

/-- Property access `parsed.key` on a parsed JSON value: a field of an
object, and `undefined` (here `none`) on anything else. (On `null` the
access throws a TypeError in JavaScript; the surrounding `try` of
`parseStoredEntry` turns that into the same `null` result that the
`undefined` path produces, so `none` models both.) -/
def jsonField (j : Json) (key : String) : Option Json :=
  match j with
  | .obj fields => (fields.find? (fun p => p.1 = key)).map (fun p => p.2)
  | _ => none

/-- The `typeof x === 'string'` test on an accessed property. -/
def asString (j : Option Json) : Option String :=
  match j with
  | some (.str s) => some s
  | _ => none

/-- The `typeof x === 'number'` test on an accessed property. -/
def asNumber (j : Option Json) : Option ℚ :=
  match j with
  | some (.num q) => some q
  | _ => none

/-- The record rebuilt by `parseStoredEntry`, with the field types the
source checks for: five fields, the score a number. -/
structure RawStoredEntry where
  id : String
  playerName : String
  gameMode : String
  score : ℚ
  date : String
deriving DecidableEq

/-- Embedding of `parseStoredEntry` (src/api/_lib/leaderboard.ts). The
`JSON.parse` library function is a parameter `jsonParse`, with `none`
standing for a thrown parse error (caught by the source and turned into
`null`). Falsy or non-string inputs are rejected up front (the empty string
is falsy); a parsed value missing any of the five fields, holding one with
the wrong type, or naming a game mode outside the registry yields `null`. -/
def parseStoredEntry (jsonParse : String → Option Json) (value : JsVal) :
    Option RawStoredEntry :=
  match value with
  | .vstr s =>
    if s = "" then none
    else
      match jsonParse s with
      | none => none
      | some parsed =>
        match asString (jsonField parsed "id"),
              asString (jsonField parsed "playerName"),
              asString (jsonField parsed "gameMode"),
              asNumber (jsonField parsed "score"),
              asString (jsonField parsed "date") with
        | some id, some playerName, some gameMode, some score, some date =>
          if isStoredGameMode gameMode then
            some { id := id, playerName := playerName, gameMode := gameMode,
                   score := score, date := date }
          else none
        | _, _, _, _, _ => none
  | _ => none

/-- A board entry used by the concrete counterexample runs: player `a`,
mode `quick`, score 10, with id and timestamp both `i`. -/
def fullBoardEntry (i : Nat) : LBEntry :=
  { id := i, playerName := "a", gameMode := "quick", score := 10, timestamp := i }

/-- Fifty score-10 submissions to mode `quick`, in timestamp order. -/
def fullBoardSubs : List LBEntry :=
  (List.range 50).map (fun i => fullBoardEntry (i + 1))

/-- The stored data after the fifty submissions of `fullBoardSubs`: the
mode `quick` holds exactly fifty score-10 entries, timestamps 1 to 50. -/
def fullBoard : List LBEntry :=
  (List.range 50).map (fun i => fullBoardEntry (i + 1))

/-- A fifty-first, lower-scored submission to the full board: player `b`,
mode `quick`, score 5, id and timestamp 51. -/
def lowEntry : LBEntry :=
  { id := 51, playerName := "b", gameMode := "quick", score := 5, timestamp := 51 }

/-- Request body carrying the `lowEntry` submission. -/
def lowBody : SubmitBody :=
  { playerName := .vstr "b", gameMode := .vstr "quick",
    score := .vnum (.finite 5) }

/-- Ordering invariant of a sorted mode collection: scores are descending
(the comparator order of the source). -/
abbrev SortedByScoreDesc (l : List LBEntry) : Prop :=
  l.Pairwise (fun a b => b.score ≤ a.score)

/-- The ordering the specification requires of a leaderboard view: score
descending, and among equal scores timestamp ascending (earlier submission
wins ties). -/
abbrev ViewOrdered (l : List LBEntry) : Prop :=
  l.Pairwise (fun a b => b.score < a.score ∨ (a.score = b.score ∧ a.timestamp < b.timestamp))

/-- Entries with equal scores appear in timestamp order. Because the stable
sort keeps ties in list order, this is the property of the stored order that
makes sorted views tie-break by timestamp. -/
abbrev TieOrdered (l : List LBEntry) : Prop :=
  l.Pairwise (fun a b => a.score = b.score → a.timestamp < b.timestamp)

/-- A two-entry stored board for concrete query checks: scores 5 and 3 in
mode `quick`. -/
def twoEntryBoard : List LBEntry :=
  [{ id := 1, playerName := "a", gameMode := "quick", score := 5, timestamp := 1 },
   { id := 2, playerName := "b", gameMode := "quick", score := 3, timestamp := 2 }]

/-- A fresh third entry submitted on top of `twoEntryBoard`, used by
witnesses: mode `quick`, score 4, id and timestamp 3. -/
def newEntryC1 : LBEntry :=
  { id := 3, playerName := "c", gameMode := "quick", score := 4, timestamp := 3 }

/-- Request body of the first writer of the concrete write race. -/
def raceBodyA : SubmitBody :=
  { playerName := .vstr "alice", gameMode := .vstr "quick",
    score := .vnum (.finite 100) }

/-- Request body of the second writer of the concrete write race. -/
def raceBodyB : SubmitBody :=
  { playerName := .vstr "bob", gameMode := .vstr "quick",
    score := .vnum (.finite 90) }

/-- Three-submission run used against the aggregate view ordering: mode
`quick` score 10 at instant 1, mode `endless` score 50 at instant 2, mode
`quick` score 50 at instant 3. -/
def crossModeRun : List LBEntry :=
  submitStep
    (submitStep
      (submitStep [] { id := 1, playerName := "p", gameMode := "quick",
                       score := 10, timestamp := 1 })
      { id := 2, playerName := "p", gameMode := "endless", score := 50,
        timestamp := 2 })
    { id := 3, playerName := "p", gameMode := "quick", score := 50,
      timestamp := 3 }

/-! ## Theorems -/

/-- The floor-division form of `jsRound` computes JavaScript `Math.round`,
that is rounding half towards positive infinity: `⌊q + 1/2⌋`. -/
theorem jsRound_eq_floor (q : ℚ) : jsRound q = ⌊q + 1 / 2⌋ := by
  have hden : ((q.den : ℚ)) ≠ 0 := by
    have := q.den_nz
    exact_mod_cast this
  have hnum : (q.num : ℚ) = q * (q.den : ℚ) := (div_eq_iff hden).mp (Rat.num_div_den q)
  have hq : q + 1 / 2 = ((2 * q.num + (q.den : Int) : ℤ) : ℚ) / ((2 * q.den : ℕ) : ℚ) := by
    have hden2 : ((2 * q.den : ℕ) : ℚ) ≠ 0 := by positivity
    rw [eq_div_iff hden2]
    push_cast
    rw [hnum]
    ring
  rw [jsRound, hq, Rat.floor_intCast_div_natCast, Int.fdiv_eq_ediv]
  · push_cast
    rfl
  · positivity

/-- The view of an empty store is empty, for every mode. -/
theorem queryScores_nil (mode : String) : queryScores [] mode = [] := by
  rcases eq_or_ne mode "all" with h | h <;> simp [queryScores, sortByScoreDesc, h]

/-- Every value `parseStoredEntry` accepts names a registered game mode. -/
theorem parseStoredEntry_gameMode (jsonParse : String → Option Json) (v : JsVal)
    (e : RawStoredEntry) (h : parseStoredEntry jsonParse v = some e) :
    isStoredGameMode e.gameMode = true := by
  cases v with
  | vnum n => simp [parseStoredEntry] at h
  | vother => simp [parseStoredEntry] at h
  | vstr s =>
    by_cases hs : s = ""
    · simp [parseStoredEntry, hs] at h
    · cases hp : jsonParse s with
      | none => simp [parseStoredEntry, hs, hp] at h
      | some j =>
        cases h1 : asString (jsonField j "id") with
        | none => simp [parseStoredEntry, hs, hp, h1] at h
        | some idv =>
        cases h2 : asString (jsonField j "playerName") with
        | none => simp [parseStoredEntry, hs, hp, h1, h2] at h
        | some pn =>
        cases h3 : asString (jsonField j "gameMode") with
        | none => simp [parseStoredEntry, hs, hp, h1, h2, h3] at h
        | some gm =>
        cases h4 : asNumber (jsonField j "score") with
        | none => simp [parseStoredEntry, hs, hp, h1, h2, h3, h4] at h
        | some sc =>
        cases h5 : asString (jsonField j "date") with
        | none => simp [parseStoredEntry, hs, hp, h1, h2, h3, h4, h5] at h
        | some dt =>
          cases hg : isStoredGameMode gm with
          | false => simp [parseStoredEntry, hs, hp, h1, h2, h3, h4, h5, hg] at h
          | true =>
            simp [parseStoredEntry, hs, hp, h1, h2, h3, h4, h5, hg] at h
            rw [← h]
            exact hg

/-- C3: the validator accepts a submission with score 0; rejects score NaN
or an infinity; accepts a player name of exactly 20 characters after
trimming and rejects one of 21 characters; rejects a name trimming to the
empty string (empty or whitespace-only); and every accepted score is stored
as `max(0, round(value))`. -/
theorem C3_validation_boundaries :
    sanitizeScore (.vnum (.finite 0)) = some 0 ∧
    sanitizeScore (.vnum .nan) = none ∧
    sanitizeScore (.vnum .posInf) = none ∧
    sanitizeScore (.vnum .negInf) = none ∧
    (∀ s : String, (jsTrim s).length = 20 →
      sanitizePlayerName (.vstr s) = some (jsTrim s)) ∧
    (∀ s : String, (jsTrim s).length = 21 →
      sanitizePlayerName (.vstr s) = none) ∧
    (∀ s : String, jsTrim s = "" → sanitizePlayerName (.vstr s) = none) ∧
    (∀ (q : ℚ) (r : Int), sanitizeScore (.vnum (.finite q)) = some r →
      r = max 0 (jsRound q)) := by
  refine ⟨by decide, rfl, rfl, rfl, ?_, ?_, ?_, ?_⟩
  · intro s h
    have hne : ¬(jsTrim s = "") := by
      intro he
      rw [he] at h
      simp [String.length] at h
    simp [sanitizePlayerName, h, hne]
  · intro s h
    simp [sanitizePlayerName, h]
  · intro s h
    simp [sanitizePlayerName, h]
  · intro q r h
    simp [sanitizeScore] at h
    exact h.symm

/-- Witness for C3 at concrete inputs: a 20-character name is accepted, a
21-character name is rejected, a whitespace-only name is rejected, and the
score 4.5 is accepted and stored as `max(0, round(4.5)) = 5`. -/
theorem C3_validation_boundaries_witness :
    (jsTrim (String.mk (List.replicate 20 'a'))).length = 20 ∧
    sanitizePlayerName (.vstr (String.mk (List.replicate 20 'a'))) =
      some (jsTrim (String.mk (List.replicate 20 'a'))) ∧
    (jsTrim (String.mk (List.replicate 21 'a'))).length = 21 ∧
    sanitizePlayerName (.vstr (String.mk (List.replicate 21 'a'))) = none ∧
    jsTrim "   " = "" ∧
    sanitizePlayerName (.vstr "   ") = none ∧
    sanitizeScore (.vnum (.finite nineHalves)) = some 5 ∧
    (5 : Int) = max 0 (jsRound nineHalves) :=
  ⟨by decide, C3_validation_boundaries.2.2.2.2.1 _ (by decide),
   by decide, C3_validation_boundaries.2.2.2.2.2.1 _ (by decide),
   by decide, C3_validation_boundaries.2.2.2.2.2.2.1 _ (by decide),
   by decide, C3_validation_boundaries.2.2.2.2.2.2.2 nineHalves 5 (by decide)⟩

/-- C9: a query whose blob read fails in any way (listing threw, blob
absent, download not ok, body unparsable), and a query for a valid mode
with no entries of that mode, both answer 200 with an empty list, never an
error. -/
theorem C9_query_degrades_to_empty :
    (∀ (params : QueryParams) (fetch : FetchOutcome),
      isReadGameMode (effectiveQueryMode params.mode) = true →
      (∀ d : LeaderboardData, fetch ≠ .ok d) →
      queryHandler params fetch = .ok []) ∧
    (∀ (params : QueryParams) (d : LeaderboardData),
      isReadGameMode (effectiveQueryMode params.mode) = true →
      (∀ e ∈ d.entries, e.gameMode ≠ effectiveQueryMode params.mode) →
      effectiveQueryMode params.mode ≠ "all" →
      queryHandler params (.ok d) = .ok []) ∧
    (∀ (params : QueryParams),
      isReadGameMode (effectiveQueryMode params.mode) = true →
      queryHandler params (.ok ⟨[]⟩) = .ok []) := by
  refine ⟨?_, ?_, ?_⟩
  · intro params fetch hvalid hfail
    have hdata : getLeaderboardData fetch = ⟨[]⟩ := by
      cases fetch with
      | ok d => exact absurd rfl (hfail d)
      | listThrew => rfl
      | blobMissing => rfl
      | fetchNotOk => rfl
      | bodyThrew => rfl
    simp [queryHandler, hvalid, hdata, queryScores_nil]
  · intro params d hvalid hnone hnotall
    have hfilter : d.entries.filter
        (fun e => e.gameMode = effectiveQueryMode params.mode) = [] := by
      rw [List.filter_eq_nil_iff]
      intro e he
      simpa using hnone e he
    simp [queryHandler, hvalid, getLeaderboardData, queryScores, hnotall,
      hfilter, sortByScoreDesc]
  · intro params hvalid
    simp [queryHandler, hvalid, getLeaderboardData, queryScores_nil]

/-- Witness for C9 at concrete inputs: an unreachable backend and a mode
without entries both produce the empty list. -/
theorem C9_query_degrades_to_empty_witness :
    queryHandler ⟨some "quick", none⟩ .listThrew = .ok [] ∧
    queryHandler ⟨some "quick", none⟩
      (.ok ⟨[{ id := 1, playerName := "a", gameMode := "endless", score := 3,
               timestamp := 1 }]⟩) = .ok [] ∧
    queryHandler ⟨some "all", none⟩ (.ok ⟨[]⟩) = .ok [] :=
  ⟨C9_query_degrades_to_empty.1 ⟨some "quick", none⟩ .listThrew (by decide)
      (by intro d h; exact FetchOutcome.noConfusion h),
   C9_query_degrades_to_empty.2.1 ⟨some "quick", none⟩ _ (by decide)
      (by decide) (by decide),
   C9_query_degrades_to_empty.2.2 ⟨some "all", none⟩ (by decide)⟩

/-- A string outside the registry list fails the `isStoredGameMode` test. -/
theorem isStoredGameMode_eq_false {m : String} (h : m ∉ VALID_GAME_MODES) :
    isStoredGameMode m = false := by
  simpa [isStoredGameMode] using h

/-- C10: parsing of persisted leaderboard data is total and guarded. Every
accepted value names a registered game mode; non-string values, strings the
JSON parser rejects, parsed values with a missing or ill-typed field, and
parsed values naming an unregistered game mode all yield `null` (never an
exception — the embedding is a total function); and `getLeaderboardData`
yields `{entries: []}` on every listing, fetch, or parse failure. -/
theorem C10_parse_totality :
    (∀ (jsonParse : String → Option Json) (v : JsVal) (e : RawStoredEntry),
      parseStoredEntry jsonParse v = some e → isStoredGameMode e.gameMode = true) ∧
    (∀ (jsonParse : String → Option Json) (n : JsNumber),
      parseStoredEntry jsonParse (.vnum n) = none) ∧
    (∀ jsonParse : String → Option Json,
      parseStoredEntry jsonParse .vother = none) ∧
    (∀ (jsonParse : String → Option Json) (s : String),
      jsonParse s = none → parseStoredEntry jsonParse (.vstr s) = none) ∧
    (∀ (jsonParse : String → Option Json) (s : String) (j : Json),
      jsonParse s = some j →
      (asString (jsonField j "id") = none ∨
       asString (jsonField j "playerName") = none ∨
       asString (jsonField j "gameMode") = none ∨
       asNumber (jsonField j "score") = none ∨
       asString (jsonField j "date") = none) →
      parseStoredEntry jsonParse (.vstr s) = none) ∧
    (∀ (jsonParse : String → Option Json) (s : String) (j : Json) (g : String),
      jsonParse s = some j → asString (jsonField j "gameMode") = some g →
      isStoredGameMode g = false → parseStoredEntry jsonParse (.vstr s) = none) ∧
    (getLeaderboardData .listThrew = ⟨[]⟩ ∧
     getLeaderboardData .blobMissing = ⟨[]⟩ ∧
     getLeaderboardData .fetchNotOk = ⟨[]⟩ ∧
     getLeaderboardData .bodyThrew = ⟨[]⟩) := by
  refine ⟨parseStoredEntry_gameMode, ?_, ?_, ?_, ?_, ?_, rfl, rfl, rfl, rfl⟩
  · intro parse n
    simp [parseStoredEntry]
  · intro parse
    simp [parseStoredEntry]
  · intro parse s hp
    by_cases hs : s = ""
    · simp [parseStoredEntry, hs]
    · simp [parseStoredEntry, hs, hp]
  · intro parse s j hp hd
    by_cases hs : s = ""
    · simp [parseStoredEntry, hs]
    · cases h1 : asString (jsonField j "id") <;>
      cases h2 : asString (jsonField j "playerName") <;>
      cases h3 : asString (jsonField j "gameMode") <;>
      cases h4 : asNumber (jsonField j "score") <;>
      cases h5 : asString (jsonField j "date") <;>
      simp_all [parseStoredEntry, hs, hp]
  · intro parse s j g hp hg hreject
    by_cases hs : s = ""
    · simp [parseStoredEntry, hs]
    · cases h1 : asString (jsonField j "id") <;>
      cases h2 : asString (jsonField j "playerName") <;>
      cases h4 : asNumber (jsonField j "score") <;>
      cases h5 : asString (jsonField j "date") <;>
      simp_all [parseStoredEntry, hs, hp]

/-- Witness for C10 at concrete inputs: a rejecting parser, an object with
a missing field, and an object naming an unregistered mode all yield
`null`. -/
theorem C10_parse_totality_witness :
    parseStoredEntry (fun _ => none) (.vstr "x") = none ∧
    parseStoredEntry
      (fun _ => some (Json.obj [("id", Json.str "1")])) (.vstr "x") = none ∧
    parseStoredEntry
      (fun _ => some (Json.obj
        [("id", Json.str "1"), ("playerName", Json.str "a"),
         ("gameMode", Json.str "bogus"), ("score", Json.num 1),
         ("date", Json.str "d")])) (.vstr "x") = none :=
  ⟨C10_parse_totality.2.2.2.1 (fun _ => none) "x" rfl,
   C10_parse_totality.2.2.2.2.1 (fun _ => some (Json.obj [("id", Json.str "1")]))
     "x" _ rfl (Or.inr (Or.inl (by decide))),
   C10_parse_totality.2.2.2.2.2.1
     (fun _ => some (Json.obj
       [("id", Json.str "1"), ("playerName", Json.str "a"),
        ("gameMode", Json.str "bogus"), ("score", Json.num 1),
        ("date", Json.str "d")])) "x" _ "bogus" rfl (by decide) (by decide)⟩

/-- C8 (amended): the mode `all` is accepted by queries and rejected by
submits; mode checking is case-sensitive; a submission naming any mode
outside the registry is rejected with a validation error, leaving the store
unwritten and answering independently of the store content; a query naming
any nonempty mode outside the registry and different from `all` is rejected
with a validation error for every store state; the one exception is the
empty mode string, which `rawMode || 'all'` treats as an absent parameter,
so such a query is answered as an `all` query instead of being rejected. -/
theorem C8_mode_gatekeeping :
    isReadGameMode "all" = true ∧
    isStoredGameMode "all" = false ∧
    isStoredGameMode "Quick" = false ∧
    isReadGameMode "Speedsort" = false ∧
    (∀ m : String, m ∉ VALID_GAME_MODES →
      ∀ (name score : JsVal) (store : LeaderboardData) (id ts : Nat),
        (submitHandler (some ⟨name, .vstr m, score⟩) store id ts).1 = store ∧
        (submitHandler (some ⟨name, .vstr m, score⟩) store id ts).2 =
          (submitHandler (some ⟨name, .vstr m, score⟩) ⟨[]⟩ id ts).2 ∧
        (∃ err, (submitHandler (some ⟨name, .vstr m, score⟩) store id ts).2 =
          .badRequest err)) ∧
    (∀ m : String, m ≠ "all" → m ≠ "" → m ∉ VALID_GAME_MODES →
      ∀ (limit : Option Nat) (fetch : FetchOutcome),
        queryHandler ⟨some m, limit⟩ fetch = .badRequest "Invalid mode") ∧
    (∀ (limit : Option Nat) (fetch : FetchOutcome),
      queryHandler ⟨some "", limit⟩ fetch =
        queryHandler ⟨some "all", limit⟩ fetch) := by
  refine ⟨by decide, by decide, by decide, by decide, ?_, ?_, ?_⟩
  · intro m hm name score store id ts
    have hmode : isStoredGameMode m = false := isStoredGameMode_eq_false hm
    cases hname : sanitizePlayerName name with
    | none => exact ⟨by simp [submitHandler, hname], by simp [submitHandler, hname],
        ⟨"Invalid playerName (1-20 chars)", by simp [submitHandler, hname]⟩⟩
    | some pn => exact ⟨by simp [submitHandler, hname, hmode],
        by simp [submitHandler, hname, hmode],
        ⟨"Invalid gameMode", by simp [submitHandler, hname, hmode]⟩⟩
  · intro m hall hempty hm limit fetch
    have hmode : isStoredGameMode m = false := isStoredGameMode_eq_false hm
    simp [queryHandler, effectiveQueryMode, hempty, isReadGameMode, hall, hmode]
  · intro limit fetch
    rfl

/-- C8 counterexample: the empty string is a mode string outside the closed
registry (and is not `all`), yet a query naming it is not rejected — it is
answered 200 with the aggregate view. -/
theorem C8_counterexample_empty_mode_query :
    ("" ∉ VALID_GAME_MODES ∧ "" ≠ "all") ∧
    queryHandler ⟨some "", none⟩ (.ok ⟨[]⟩) = .ok [] :=
  ⟨by decide, by decide⟩

/-- Witness for C8 at the concrete unregistered mode `bogus`. -/
theorem C8_mode_gatekeeping_witness :
    ("bogus" ∉ VALID_GAME_MODES) ∧
    ((submitHandler (some ⟨.vstr "p", .vstr "bogus", .vnum (.finite 1)⟩)
        ⟨[]⟩ 1 1).1 = ⟨[]⟩ ∧
     (submitHandler (some ⟨.vstr "p", .vstr "bogus", .vnum (.finite 1)⟩)
        ⟨[]⟩ 1 1).2 =
       (submitHandler (some ⟨.vstr "p", .vstr "bogus", .vnum (.finite 1)⟩)
        ⟨[]⟩ 1 1).2 ∧
     (∃ err, (submitHandler (some ⟨.vstr "p", .vstr "bogus", .vnum (.finite 1)⟩)
        ⟨[]⟩ 1 1).2 = .badRequest err)) ∧
    queryHandler ⟨some "bogus", none⟩ .listThrew = .badRequest "Invalid mode" :=
  ⟨by decide,
   C8_mode_gatekeeping.2.2.2.2.1 "bogus" (by decide) (.vstr "p")
     (.vnum (.finite 1)) ⟨[]⟩ 1 1,
   C8_mode_gatekeeping.2.2.2.2.2.1 "bogus" (by decide) (by decide) (by decide)
     none .listThrew⟩

/-! ### The stable sort -/

/-- The insertion step is a takeWhile/dropWhile split: the new element lands
after every already-placed element of at least its score. -/
theorem insertByScoreDesc_eq (x : LBEntry) (l : List LBEntry) :
    insertByScoreDesc x l =
      l.takeWhile (fun y => x.score ≤ y.score) ++
        x :: l.dropWhile (fun y => x.score ≤ y.score) := by
  induction l with
  | nil => rfl
  | cons y ys ih =>
    by_cases h : x.score ≤ y.score
    · simp [insertByScoreDesc, List.takeWhile_cons, List.dropWhile_cons, h, ih]
    · simp [insertByScoreDesc, List.takeWhile_cons, List.dropWhile_cons, h]

/-- Inserting permutes to consing. -/
theorem insertByScoreDesc_perm (x : LBEntry) (l : List LBEntry) :
    List.Perm (insertByScoreDesc x l) (x :: l) := by
  rw [insertByScoreDesc_eq]
  have h1 : List.Perm
      (l.takeWhile (fun y => x.score ≤ y.score) ++
        x :: l.dropWhile (fun y => x.score ≤ y.score))
      (x :: (l.takeWhile (fun y => x.score ≤ y.score) ++
        l.dropWhile (fun y => x.score ≤ y.score))) := List.perm_middle
  rw [List.takeWhile_append_dropWhile] at h1
  exact h1

/-- The sort fold permutes to appending. -/
theorem foldl_insertByScoreDesc_perm (l : List LBEntry) :
    ∀ acc, List.Perm (l.foldl (fun a x => insertByScoreDesc x a) acc) (acc ++ l) := by
  induction l with
  | nil => intro acc; simp
  | cons x xs ih =>
    intro acc
    rw [List.foldl_cons]
    refine (ih (insertByScoreDesc x acc)).trans ?_
    have h1 : List.Perm (insertByScoreDesc x acc ++ xs) ((x :: acc) ++ xs) :=
      (insertByScoreDesc_perm x acc).append_right xs
    exact h1.trans List.perm_middle.symm

/-- The sort permutes its input. -/
theorem sortByScoreDesc_perm (l : List LBEntry) :
    List.Perm (sortByScoreDesc l) l := by
  simpa using foldl_insertByScoreDesc_perm l []

/-- Inserting preserves descending score order. -/
theorem insertByScoreDesc_sorted {l : List LBEntry} (x : LBEntry)
    (hl : SortedByScoreDesc l) : SortedByScoreDesc (insertByScoreDesc x l) := by
  induction l with
  | nil => simp [insertByScoreDesc]
  | cons y ys ih =>
    rcases List.pairwise_cons.mp hl with ⟨hy, hys⟩
    by_cases h : x.score ≤ y.score
    · simp only [insertByScoreDesc, if_pos h]
      refine List.pairwise_cons.mpr ⟨?_, ih hys⟩
      intro z hz
      rcases (by simpa using (insertByScoreDesc_perm x ys).mem_iff.mp hz :
          z = x ∨ z ∈ ys) with rfl | hz'
      · exact h
      · exact hy z hz'
    · simp only [insertByScoreDesc, if_neg h]
      refine List.pairwise_cons.mpr ⟨?_, hl⟩
      intro z hz
      rcases List.mem_cons.mp hz with rfl | hz'
      · exact le_of_lt (lt_of_not_le h)
      · exact le_trans (hy z hz') (le_of_lt (lt_of_not_le h))

/-- The sort fold yields descending scores from any sorted accumulator. -/
theorem foldl_insertByScoreDesc_sorted (l : List LBEntry) :
    ∀ acc, SortedByScoreDesc acc →
      SortedByScoreDesc (l.foldl (fun a x => insertByScoreDesc x a) acc) := by
  induction l with
  | nil => intro acc h; exact h
  | cons x xs ih =>
    intro acc h
    rw [List.foldl_cons]
    exact ih _ (insertByScoreDesc_sorted x h)

/-- The sort output has descending scores. -/
theorem sortByScoreDesc_sorted (l : List LBEntry) :
    SortedByScoreDesc (sortByScoreDesc l) :=
  foldl_insertByScoreDesc_sorted l [] (by simp)

/-- Inserting an element no element beats lands at the end. -/
theorem insertByScoreDesc_of_all_ge {x : LBEntry} {l : List LBEntry}
    (h : ∀ y ∈ l, x.score ≤ y.score) : insertByScoreDesc x l = l ++ [x] := by
  rw [insertByScoreDesc_eq, List.takeWhile_eq_self_iff.mpr (by simpa using h),
    List.dropWhile_eq_nil_iff.mpr (by simpa using h)]

/-- The sort fold fixes an already sorted concatenation. -/
theorem foldl_insertByScoreDesc_of_sorted (l : List LBEntry) :
    ∀ acc, SortedByScoreDesc (acc ++ l) →
      l.foldl (fun a x => insertByScoreDesc x a) acc = acc ++ l := by
  induction l with
  | nil => intro acc _; simp
  | cons x xs ih =>
    intro acc h
    have hx : ∀ y ∈ acc, x.score ≤ y.score := by
      intro y hy
      exact (List.pairwise_append.mp h).2.2 y hy x (by simp)
    rw [List.foldl_cons, insertByScoreDesc_of_all_ge hx,
      ih (acc ++ [x]) (by simpa using h)]
    simp

/-- Sorting an already sorted list changes nothing (the second sort the
rank computation performs is the identity). -/
theorem sortByScoreDesc_of_sorted {l : List LBEntry} (h : SortedByScoreDesc l) :
    sortByScoreDesc l = l := by
  simpa using foldl_insertByScoreDesc_of_sorted l [] (by simpa using h)

/-- Stability, in the form the view ordering needs: inserting an element
whose timestamp beats every equal-scored placed element preserves the full
view order. -/
theorem insertByScoreDesc_viewOrdered {l : List LBEntry} {x : LBEntry}
    (hl : ViewOrdered l)
    (hx : ∀ y ∈ l, y.score = x.score → y.timestamp < x.timestamp) :
    ViewOrdered (insertByScoreDesc x l) := by
  induction l with
  | nil => simp [insertByScoreDesc]
  | cons y ys ih =>
    rcases List.pairwise_cons.mp hl with ⟨hy, hys⟩
    by_cases h : x.score ≤ y.score
    · simp only [insertByScoreDesc, if_pos h]
      refine List.pairwise_cons.mpr
        ⟨?_, ih hys (fun z hz hsc => hx z (List.mem_cons_of_mem y hz) hsc)⟩
      intro z hz
      rcases (by simpa using (insertByScoreDesc_perm x ys).mem_iff.mp hz :
          z = x ∨ z ∈ ys) with rfl | hz'
      · rcases lt_or_eq_of_le h with hlt | heq
        · exact Or.inl hlt
        · exact Or.inr ⟨heq.symm, hx y (List.mem_cons_self y ys) heq.symm⟩
      · exact hy z hz'
    · simp only [insertByScoreDesc, if_neg h]
      refine List.pairwise_cons.mpr ⟨?_, hl⟩
      intro z hz
      rcases List.mem_cons.mp hz with rfl | hz'
      · exact Or.inl (lt_of_not_le h)
      · refine Or.inl (lt_of_le_of_lt ?_ (lt_of_not_le h))
        rcases hy z hz' with hlt | ⟨heq, _⟩
        · exact le_of_lt hlt
        · exact le_of_eq heq.symm

/-- The sort fold keeps the full view order when ties arrive in timestamp
order. -/
theorem foldl_insertByScoreDesc_viewOrdered (l : List LBEntry) :
    ∀ acc, ViewOrdered acc → TieOrdered l →
      (∀ x ∈ l, ∀ y ∈ acc, y.score = x.score → y.timestamp < x.timestamp) →
      ViewOrdered (l.foldl (fun a x => insertByScoreDesc x a) acc) := by
  induction l with
  | nil => intro acc h _ _; exact h
  | cons x xs ih =>
    intro acc hacc htie hcross
    rcases List.pairwise_cons.mp htie with ⟨hxt, hxs⟩
    rw [List.foldl_cons]
    refine ih _ (insertByScoreDesc_viewOrdered hacc
      (fun y hy => hcross x (List.mem_cons_self x xs) y hy)) hxs ?_
    intro w hw y hy
    rcases (by simpa using (insertByScoreDesc_perm x acc).mem_iff.mp hy :
        y = x ∨ y ∈ acc) with rfl | hy'
    · exact hxt w hw
    · exact hcross w (List.mem_cons_of_mem x hw) y hy'

/-- Sorting a tie-ordered list yields a fully view-ordered list: the stable
sort orders by score and keeps equal scores in timestamp order. -/
theorem sortByScoreDesc_viewOrdered {l : List LBEntry} (h : TieOrdered l) :
    ViewOrdered (sortByScoreDesc l) :=
  foldl_insertByScoreDesc_viewOrdered l [] (by simp) h (by simp)

/-! ### The per-mode grouping of the submit handler -/

/-- Invariant of the grouping fold: starting from a map that groups `done`,
processing `rest` yields the map grouping `done ++ rest` — each bucket is
the filter of its key, keys are distinct, and every processed entry has a
bucket. -/
theorem byMode_foldl_spec (rest : List LBEntry) :
    ∀ (done : List LBEntry) (m : List (String × List LBEntry)),
      (∀ p ∈ m, p.2 = done.filter (fun e => e.gameMode = p.1)) →
      m.Pairwise (fun p q => p.1 ≠ q.1) →
      (∀ e ∈ done, ∃ p ∈ m, p.1 = e.gameMode) →
      (∀ p ∈ rest.foldl byModeInsert m,
        p.2 = (done ++ rest).filter (fun e => e.gameMode = p.1)) ∧
      (rest.foldl byModeInsert m).Pairwise (fun p q => p.1 ≠ q.1) ∧
      (∀ e ∈ done ++ rest, ∃ p ∈ rest.foldl byModeInsert m, p.1 = e.gameMode) := by
  induction rest with
  | nil =>
    intro done m h1 h2 h3
    rw [List.foldl_nil, List.append_nil]
    exact ⟨h1, h2, h3⟩
  | cons e rest ih =>
    intro done m h1 h2 h3
    rw [List.foldl_cons]
    by_cases hkey : ∃ p ∈ m, p.1 = e.gameMode
    · have hany : m.any (fun p => p.1 = e.gameMode) = true := by
        obtain ⟨p, hp, hp1⟩ := hkey
        exact List.any_eq_true.mpr ⟨p, hp, by simp [hp1]⟩
      have hins : byModeInsert m e =
          m.map (fun p => if p.1 = e.gameMode then (p.1, p.2 ++ [e]) else p) := by
        simp [byModeInsert, hany]
      have hfst : ∀ p : String × List LBEntry,
          (if p.1 = e.gameMode then (p.1, p.2 ++ [e]) else p).1 = p.1 := by
        intro p
        by_cases h : p.1 = e.gameMode <;> simp [h]
      have hinv1 : ∀ p ∈ byModeInsert m e,
          p.2 = (done ++ [e]).filter (fun x => x.gameMode = p.1) := by
        rw [hins]
        intro p' hp'
        obtain ⟨p, hp, hfp⟩ := List.mem_map.mp hp'
        by_cases h : p.1 = e.gameMode
        · rw [if_pos h] at hfp
          rw [← hfp]
          simp only [List.filter_append]
          rw [← h1 p hp]
          simp [h.symm]
        · rw [if_neg h] at hfp
          rw [← hfp]
          simp only [List.filter_append]
          rw [← h1 p hp]
          have : e.gameMode ≠ p.1 := fun hc => h hc.symm
          simp [this]
      have hinv2 : (byModeInsert m e).Pairwise (fun p q => p.1 ≠ q.1) := by
        rw [hins]
        refine List.Pairwise.map _ ?_ h2
        intro p q hpq
        rw [hfst p, hfst q]
        exact hpq
      have hinv3 : ∀ x ∈ done ++ [e], ∃ p ∈ byModeInsert m e, p.1 = x.gameMode := by
        rw [hins]
        intro x hx
        rcases List.mem_append.mp hx with hx | hx
        · obtain ⟨p, hp, hp1⟩ := h3 x hx
          exact ⟨_, List.mem_map_of_mem _ hp, by rw [hfst p]; exact hp1⟩
        · obtain ⟨p, hp, hp1⟩ := hkey
          have hex : x = e := by simpa using hx
          exact ⟨_, List.mem_map_of_mem _ hp, by rw [hfst p, hp1, hex]⟩
      have key := ih (done ++ [e]) (byModeInsert m e) hinv1 hinv2 hinv3
      simpa [List.append_assoc] using key
    · have hany : m.any (fun p => p.1 = e.gameMode) = false := by
        rw [List.any_eq_false]
        intro p hp
        simp only [decide_eq_true_eq]
        exact fun hc => hkey ⟨p, hp, hc⟩
      have hins : byModeInsert m e = m ++ [(e.gameMode, [e])] := by
        simp [byModeInsert, hany]
      have hinv1 : ∀ p ∈ byModeInsert m e,
          p.2 = (done ++ [e]).filter (fun x => x.gameMode = p.1) := by
        rw [hins]
        intro p hp
        rcases List.mem_append.mp hp with hp | hp
        · have hne : e.gameMode ≠ p.1 := fun hc => hkey ⟨p, hp, hc.symm⟩
          simp only [List.filter_append]
          rw [← h1 p hp]
          simp [hne]
        · have hpe : p = (e.gameMode, [e]) := by simpa using hp
          subst hpe
          simp only [List.filter_append]
          have hdone : done.filter (fun x => x.gameMode = e.gameMode) = [] := by
            rw [List.filter_eq_nil_iff]
            intro x hx hmode
            have hmode' : x.gameMode = e.gameMode := by simpa using hmode
            obtain ⟨p, hp, hp1⟩ := h3 x hx
            exact hkey ⟨p, hp, hp1.trans hmode'⟩
          rw [hdone]
          simp
      have hinv2 : (byModeInsert m e).Pairwise (fun p q => p.1 ≠ q.1) := by
        rw [hins]
        rw [List.pairwise_append]
        refine ⟨h2, by simp, ?_⟩
        intro p hp q hq
        have hq' : q = (e.gameMode, [e]) := by simpa using hq
        subst hq'
        exact fun hc => hkey ⟨p, hp, hc⟩
      have hinv3 : ∀ x ∈ done ++ [e], ∃ p ∈ byModeInsert m e, p.1 = x.gameMode := by
        rw [hins]
        intro x hx
        rcases List.mem_append.mp hx with hx | hx
        · obtain ⟨p, hp, hp1⟩ := h3 x hx
          exact ⟨p, List.mem_append_left _ hp, hp1⟩
        · have hex : x = e := by simpa using hx
          subst hex
          exact ⟨(x.gameMode, [x]), List.mem_append_right _ (by simp), rfl⟩
      have key := ih (done ++ [e]) (byModeInsert m e) hinv1 hinv2 hinv3
      simpa [List.append_assoc] using key

/-- The grouping map of the submit handler: buckets are the per-mode
filters, keys are distinct, and every entry has a bucket. -/
theorem byMode_spec (entries : List LBEntry) :
    (∀ p ∈ byMode entries, p.2 = entries.filter (fun e => e.gameMode = p.1)) ∧
    (byMode entries).Pairwise (fun p q => p.1 ≠ q.1) ∧
    (∀ e ∈ entries, ∃ p ∈ byMode entries, p.1 = e.gameMode) := by
  have := byMode_foldl_spec entries [] [] (by simp) (by simp) (by simp)
  simpa [byMode] using this

/-- Filtering the concatenation of the trimmed buckets to one mode keeps
exactly the (unique) bucket of that mode. -/
theorem trim_foldl_filter (bs : List (String × List LBEntry)) (m : String)
    (hmodes : ∀ p ∈ bs, ∀ x ∈ p.2, x.gameMode = p.1)
    (hkeys : bs.Pairwise (fun p q => p.1 ≠ q.1)) :
    ∀ init,
      (bs.foldl (fun acc p =>
          acc ++ (sortByScoreDesc p.2).take MAX_LEADERBOARD_ENTRIES) init).filter
        (fun e => e.gameMode = m) =
      init.filter (fun e => e.gameMode = m) ++
        ((bs.find? (fun p => p.1 = m)).elim []
          (fun p => (sortByScoreDesc p.2).take MAX_LEADERBOARD_ENTRIES)) := by
  induction bs with
  | nil =>
    intro init
    simp
  | cons p bs ih =>
    intro init
    have hpmode : ∀ x ∈ (sortByScoreDesc p.2).take MAX_LEADERBOARD_ENTRIES,
        x.gameMode = p.1 := by
      intro x hx
      have hx1 : x ∈ sortByScoreDesc p.2 := List.mem_of_mem_take hx
      have hx2 : x ∈ p.2 := (sortByScoreDesc_perm p.2).mem_iff.mp hx1
      exact hmodes p (List.mem_cons_self p bs) x hx2
    rw [List.foldl_cons]
    rw [ih (fun q hq x hx => hmodes q (List.mem_cons_of_mem p hq) x hx)
      (List.pairwise_cons.mp hkeys).2 (init ++ _)]
    by_cases hm : p.1 = m
    · have hfind : (p :: bs).find? (fun q => q.1 = m) = some p := by
        simp [List.find?_cons, hm]
      have hfindbs : bs.find? (fun q => q.1 = m) = none := by
        rw [List.find?_eq_none]
        intro q hq
        have hne := (List.pairwise_cons.mp hkeys).1 q hq
        rw [hm] at hne
        simp only [decide_eq_true_eq]
        exact fun hc => hne hc.symm
      rw [hfind, hfindbs]
      have hblock : ((sortByScoreDesc p.2).take MAX_LEADERBOARD_ENTRIES).filter
          (fun e => e.gameMode = m) =
          (sortByScoreDesc p.2).take MAX_LEADERBOARD_ENTRIES := by
        rw [List.filter_eq_self]
        intro x hx
        simp [hpmode x hx, hm]
      simp only [List.filter_append, hblock, Option.elim]
      simp
    · have hfind : (p :: bs).find? (fun q => q.1 = m) = bs.find? (fun q => q.1 = m) := by
        simp [List.find?_cons, hm]
      rw [hfind]
      have hblock : ((sortByScoreDesc p.2).take MAX_LEADERBOARD_ENTRIES).filter
          (fun e => e.gameMode = m) = [] := by
        rw [List.filter_eq_nil_iff]
        intro x hx hmode
        exact hm (((hpmode x hx).symm).trans (by simpa using hmode))
      simp only [List.filter_append, hblock]
      simp

/-- The per-mode content of the trimmed store: filtering the written data to
one mode yields the sorted filter of that mode capped at 50 entries. -/
theorem trimByMode_filter (entries : List LBEntry) (m : String) :
    (trimByMode entries).filter (fun e => e.gameMode = m) =
      (sortByScoreDesc (entries.filter (fun e => e.gameMode = m))).take
        MAX_LEADERBOARD_ENTRIES := by
  obtain ⟨hval, hkeys, hcover⟩ := byMode_spec entries
  have hmodes : ∀ p ∈ byMode entries, ∀ x ∈ p.2, x.gameMode = p.1 := by
    intro p hp x hx
    rw [hval p hp] at hx
    exact of_decide_eq_true (List.mem_filter.mp hx).2
  rw [trimByMode, trim_foldl_filter (byMode entries) m hmodes hkeys []]
  cases hfind : (byMode entries).find? (fun p => p.1 = m) with
  | some p =>
    have hp1 : p.1 = m := by
      have h := List.find?_some hfind
      simpa using h
    have hpmem := List.mem_of_find?_eq_some hfind
    simp only [Option.elim, List.filter_nil, List.nil_append]
    rw [hval p hpmem, hp1]
  | none =>
    have hnone : entries.filter (fun e => e.gameMode = m) = [] := by
      rw [List.filter_eq_nil_iff]
      intro e he hmode
      obtain ⟨p, hp, hp1⟩ := hcover e he
      have := List.find?_eq_none.mp hfind p hp
      apply this
      simp [hp1]
      exact by simpa using hmode
    rw [hnone]
    simp [sortByScoreDesc]

/-- C2: capacity. After any single write completes (and therefore after the
last write of any sequence completes), every mode holds at most 50 stored
entries; and the KV-variant trim leaves at most 50 members in a sorted
set. -/
theorem C2_capacity :
    (∀ (data : List LBEntry) (e : LBEntry) (m : String),
      ((submitStep data e).filter (fun x => x.gameMode = m)).length ≤
        MAX_LEADERBOARD_ENTRIES) ∧
    (∀ (subs init : List LBEntry) (m : String), subs ≠ [] →
      ((subs.foldl submitStep init).filter (fun x => x.gameMode = m)).length ≤
        MAX_LEADERBOARD_ENTRIES) ∧
    (∀ zset : List LBEntry, (trimSortedSet zset).length ≤ MAX_LEADERBOARD_ENTRIES) := by
  have hstep : ∀ (data : List LBEntry) (e : LBEntry) (m : String),
      ((submitStep data e).filter (fun x => x.gameMode = m)).length ≤
        MAX_LEADERBOARD_ENTRIES := by
    intro data e m
    rw [submitStep, trimByMode_filter, List.length_take]
    exact min_le_left _ _
  refine ⟨hstep, ?_, ?_⟩
  · intro subs init m hne
    rcases subs.eq_nil_or_concat with rfl | ⟨ys, y, rfl⟩
    · exact absurd rfl hne
    · rw [List.concat_eq_append, List.foldl_append, List.foldl_cons, List.foldl_nil]
      exact hstep _ y m
  · intro zset
    rw [trimSortedSet]
    split
    · assumption
    · rw [List.length_drop]
      omega

/-- Witness for C2 at a concrete one-submission sequence. -/
theorem C2_capacity_witness :
    (([fullBoardEntry 1].foldl submitStep []).filter
      (fun x => x.gameMode = "quick")).length ≤ MAX_LEADERBOARD_ENTRIES :=
  C2_capacity.2.1 [fullBoardEntry 1] [] "quick" (by simp)

/-- Mapping an enumerated list is pairwise-related when the underlying list
is, for any relation not looking at the indices. -/
theorem pairwise_map_enumFrom {α β : Type} (R : α → α → Prop) (S : β → β → Prop)
    (f : Nat × α → β) (hf : ∀ (i j : Nat) (a b : α), R a b → S (f (i, a)) (f (j, b))) :
    ∀ (n : Nat) (l : List α), l.Pairwise R →
      ((l.enumFrom n).map f).Pairwise S := by
  intro n l
  induction l generalizing n with
  | nil => intro _; simp
  | cons x xs ih =>
    intro hl
    rcases List.pairwise_cons.mp hl with ⟨hx, hxs⟩
    simp only [List.enumFrom_cons, List.map_cons]
    refine List.pairwise_cons.mpr ⟨?_, ih (n + 1) hxs⟩
    intro b hb
    obtain ⟨⟨j, a⟩, hja, rfl⟩ := List.mem_map.mp hb
    have ha : a ∈ xs := by
      have : (j, a).2 ∈ (xs.enumFrom (n + 1)).map Prod.snd :=
        List.mem_map_of_mem Prod.snd hja
      rwa [List.enumFrom_map_snd] at this
    exact hf n j x a (hx a ha)

/-- C6 (amended): the query handler ignores any limit parameter entirely;
the returned view has length `min(50, size)` of the requested collection
(the whole store for `all`, the per-mode filter otherwise); each returned
row carries a 1-based rank equal to its position; and the rows are sorted
by score descending. -/
theorem C6_query_view :
    (∀ (mode : Option String) (limit lim2 : Option Nat) (fetch : FetchOutcome),
      queryHandler ⟨mode, limit⟩ fetch = queryHandler ⟨mode, lim2⟩ fetch) ∧
    (∀ (entries : List LBEntry) (mode : String),
      (queryScores entries mode).length =
        min 50 (if mode = "all" then entries.length
                else (entries.filter (fun e => e.gameMode = mode)).length)) ∧
    (∀ (entries : List LBEntry) (mode : String) (i : Nat)
      (h : i < (queryScores entries mode).length),
      ((queryScores entries mode).get ⟨i, h⟩).rank = i + 1) ∧
    (∀ (entries : List LBEntry) (mode : String),
      (queryScores entries mode).Pairwise (fun a b => b.score ≤ a.score)) := by
  refine ⟨fun _ _ _ _ => rfl, ?_, ?_, ?_⟩
  · intro entries mode
    simp only [queryScores, List.length_map, List.enum_length, List.length_take,
      (sortByScoreDesc_perm _).length_eq]
    by_cases h : mode = "all" <;> simp [h]
  · intro entries mode i h
    simp only [queryScores] at h ⊢
    rw [List.get_eq_getElem, List.getElem_map, List.getElem_enum]
  · intro entries mode
    simp only [queryScores, List.enum]
    refine pairwise_map_enumFrom (fun a b : LBEntry => b.score ≤ a.score)
      (fun a b : ScoreRow => b.score ≤ a.score) _ ?_ 0 _ ?_
    · intro i j a b hab
      exact hab
    · exact List.Pairwise.sublist (List.take_sublist _ _) (sortByScoreDesc_sorted _)

/-- Witness for C6 at the two-entry board: the first row has rank 1. -/
theorem C6_query_view_witness :
    (0 < (queryScores twoEntryBoard "quick").length) ∧
    ((queryScores twoEntryBoard "quick").get ⟨0, by decide⟩).rank = 0 + 1 :=
  ⟨by decide, C6_query_view.2.2.1 twoEntryBoard "quick" 0 (by decide)⟩

/-- C6 counterexample: there is no limit handling — a query carrying
`limit = 1` over a two-entry mode still returns both rows, not a prefix of
length `min(limit, size) = 1`. -/
theorem C6_counterexample_limit_ignored :
    queryHandler ⟨some "quick", some 1⟩ (.ok ⟨twoEntryBoard⟩) =
      .ok [{ playerName := "a", score := 5, date := 1, gameMode := "quick", rank := 1 },
           { playerName := "b", score := 3, date := 2, gameMode := "quick", rank := 2 }] ∧
    (2 : Nat) ≠ min 1 2 := by
  exact ⟨by decide, by decide⟩

/-! ### The rank of a fresh submission -/

/-- Sorting with one element appended is inserting it into the sorted
rest. -/
theorem sortByScoreDesc_append_single (l : List LBEntry) (e : LBEntry) :
    sortByScoreDesc (l ++ [e]) = insertByScoreDesc e (sortByScoreDesc l) := by
  rw [sortByScoreDesc, sortByScoreDesc, List.foldl_append, List.foldl_cons,
    List.foldl_nil]

/-- In a sorted list, everything past the initial run of scores at least
`e.score` is strictly below `e.score`. -/
theorem mem_dropWhile_score_lt {s : List LBEntry} (e : LBEntry)
    (hs : SortedByScoreDesc s) :
    ∀ x ∈ s.dropWhile (fun y => e.score ≤ y.score), x.score < e.score := by
  induction s with
  | nil => simp
  | cons y ys ih =>
    rcases List.pairwise_cons.mp hs with ⟨hy, hys⟩
    by_cases h : e.score ≤ y.score
    · rw [List.dropWhile_cons_of_pos (by simpa using h)]
      exact ih hys
    · rw [List.dropWhile_cons_of_neg (by simpa using h)]
      intro x hx
      rcases List.mem_cons.mp hx with rfl | hx'
      · exact lt_of_not_le h
      · exact lt_of_le_of_lt (hy x hx') (lt_of_not_le h)

/-- In a sorted list, the initial run of scores at least `e.score` counts
every such element. -/
theorem length_takeWhile_score (s : List LBEntry) (e : LBEntry)
    (hs : SortedByScoreDesc s) :
    (s.takeWhile (fun y => e.score ≤ y.score)).length =
      s.countP (fun y => e.score ≤ y.score) := by
  conv_rhs =>
    rw [← List.takeWhile_append_dropWhile (fun y => decide (e.score ≤ y.score)) s]
  rw [List.countP_append]
  have h1 : (s.takeWhile (fun y => decide (e.score ≤ y.score))).countP
      (fun y => decide (e.score ≤ y.score)) =
      (s.takeWhile (fun y => decide (e.score ≤ y.score))).length := by
    rw [List.countP_eq_length]
    intro a ha
    have h := @List.mem_takeWhile_imp LBEntry
      (fun y => decide (e.score ≤ y.score)) s a ha
    simpa using h
  have h2 : (s.dropWhile (fun y => decide (e.score ≤ y.score))).countP
      (fun y => decide (e.score ≤ y.score)) = 0 := by
    rw [List.countP_eq_zero]
    intro a ha
    have := mem_dropWhile_score_lt e hs a ha
    simpa using not_le_of_lt this
  rw [h1, h2]
  omega

/-- A satisfied predicate after an all-failing block is found at the block
length (accumulator form of `findIndex`). -/
theorem findIdx?_append_cons {α : Type} (p : α → Bool) (x : α) (B : List α)
    (hx : p x = true) :
    ∀ (A : List α), (∀ a ∈ A, p a = false) →
      ∀ i : Nat, List.findIdx? p (A ++ x :: B) i = some (A.length + i) := by
  intro A
  induction A with
  | nil =>
    intro _ i
    simp [List.findIdx?_cons, hx]
  | cons a A ih =>
    intro hA i
    have ha : p a = false := hA a (List.mem_cons_self a A)
    rw [List.cons_append, List.findIdx?_cons, ha]
    simp only [Bool.false_eq_true, if_false]
    rw [ih (fun b hb => hA b (List.mem_cons_of_mem a hb)) (i + 1)]
    congr 1
    simp [List.length_cons]
    omega

/-- The snapshot a submit writes for the submitted mode: the previous
entries of that mode with the new entry inserted by score, capped at 50. -/
theorem submitStep_filter (data : List LBEntry) (e : LBEntry) :
    (submitStep data e).filter (fun x => x.gameMode = e.gameMode) =
      (insertByScoreDesc e
        (sortByScoreDesc (data.filter (fun x => x.gameMode = e.gameMode)))).take
        MAX_LEADERBOARD_ENTRIES := by
  rw [submitStep, trimByMode_filter, List.filter_append]
  have h1 : [e].filter (fun x => decide (x.gameMode = e.gameMode)) = [e] := by simp
  rw [h1, sortByScoreDesc_append_single]

/-- C1 (amended): for a submit of a fresh entry (new id, newest timestamp)
whose entry survives the trim — it is present in the post-write snapshot of
its mode — the returned rank equals 1 plus the number of snapshot entries
with strictly greater score plus the number of snapshot entries with equal
score and earlier timestamp. When the entry is evicted by the trim, the
handler instead returns rank 0 and the formula does not apply (see the
counterexample). -/
theorem C1_rank_formula (data : List LBEntry) (e : LBEntry)
    (hid : ∀ x ∈ data, x.id ≠ e.id)
    (hts : ∀ x ∈ data, x.timestamp < e.timestamp)
    (hsurv : e ∈ (submitStep data e).filter (fun x => x.gameMode = e.gameMode)) :
    submitRank (submitStep data e) e.gameMode e.id =
      1 + (((submitStep data e).filter (fun x => x.gameMode = e.gameMode)).countP
            (fun x => e.score < x.score) : Int) +
        (((submitStep data e).filter (fun x => x.gameMode = e.gameMode)).countP
            (fun x => x.score = e.score ∧ x.timestamp < e.timestamp) : Int) := by
  set s := sortByScoreDesc (data.filter (fun x => x.gameMode = e.gameMode)) with hs_def
  have hs : SortedByScoreDesc s := sortByScoreDesc_sorted _
  set A := s.takeWhile (fun y => e.score ≤ y.score) with hA_def
  set B := s.dropWhile (fun y => e.score ≤ y.score) with hB_def
  have hins : insertByScoreDesc e s = A ++ e :: B := insertByScoreDesc_eq e s
  have hsnap : (submitStep data e).filter (fun x => x.gameMode = e.gameMode) =
      (A ++ e :: B).take MAX_LEADERBOARD_ENTRIES := by
    rw [submitStep_filter, hins]
  have hmemA : ∀ x ∈ A, x ∈ data := by
    intro x hx
    have h1 : x ∈ s := List.Sublist.mem hx (List.takeWhile_sublist _)
    have h2 := (sortByScoreDesc_perm _).mem_iff.mp h1
    exact (List.mem_filter.mp h2).1
  have hmemB : ∀ x ∈ B, x ∈ data := by
    intro x hx
    have h1 : x ∈ s := List.Sublist.mem hx (List.dropWhile_sublist _)
    have h2 := (sortByScoreDesc_perm _).mem_iff.mp h1
    exact (List.mem_filter.mp h2).1
  have hAscore : ∀ x ∈ A, e.score ≤ x.score := by
    intro x hx
    have h := @List.mem_takeWhile_imp LBEntry
      (fun y => decide (e.score ≤ y.score)) s x hx
    simpa using h
  have hBscore : ∀ x ∈ B, x.score < e.score := mem_dropWhile_score_lt e hs
  have hA50 : A.length < MAX_LEADERBOARD_ENTRIES := by
    by_contra hge
    push_neg at hge
    rw [hsnap, List.take_append_of_le_length hge] at hsurv
    exact hid e (hmemA e (List.mem_of_mem_take hsurv)) rfl
  obtain ⟨k, hk⟩ : ∃ k, MAX_LEADERBOARD_ENTRIES - A.length = k + 1 :=
    ⟨MAX_LEADERBOARD_ENTRIES - A.length - 1, by omega⟩
  have hsnap2 : (submitStep data e).filter (fun x => x.gameMode = e.gameMode) =
      A ++ e :: B.take k := by
    rw [hsnap, List.take_append_eq_append_take,
      List.take_of_length_le (le_of_lt hA50), hk, List.take_succ_cons]
  have hsorted_snap : SortedByScoreDesc
      ((submitStep data e).filter (fun x => x.gameMode = e.gameMode)) := by
    rw [hsnap]
    exact List.Pairwise.sublist (List.take_sublist _ _)
      (hins ▸ insertByScoreDesc_sorted e hs)
  have hAfalse : ∀ a ∈ A, (fun x => decide (x.id = e.id)) a = false := by
    intro a ha
    simp [hid a (hmemA a ha)]
  have hfind : List.findIdx? (fun x => decide (x.id = e.id)) (A ++ e :: B.take k) 0 =
      some A.length := by
    have h := findIdx?_append_cons (fun x => decide (x.id = e.id)) e (B.take k)
      (by simp) A hAfalse 0
    simpa using h
  have hrank : submitRank (submitStep data e) e.gameMode e.id = (A.length : Int) + 1 := by
    rw [submitRank, sortByScoreDesc_of_sorted hsorted_snap, hsnap2]
    simp [jsFindIndex, hfind]
  have hc1 : ((submitStep data e).filter (fun x => x.gameMode = e.gameMode)).countP
      (fun x => e.score < x.score) = A.countP (fun x => e.score < x.score) := by
    rw [hsnap2, List.countP_append, List.countP_cons]
    have hBk : (B.take k).countP (fun x => decide (e.score < x.score)) = 0 := by
      rw [List.countP_eq_zero]
      intro a ha
      have h := hBscore a (List.mem_of_mem_take ha)
      simp only [decide_eq_true_eq]
      omega
    rw [hBk]
    simp
  have hc2 : ((submitStep data e).filter (fun x => x.gameMode = e.gameMode)).countP
      (fun x => x.score = e.score ∧ x.timestamp < e.timestamp) =
      A.countP (fun x => x.score = e.score) := by
    rw [hsnap2, List.countP_append, List.countP_cons]
    have hBk : (B.take k).countP
        (fun x => decide (x.score = e.score ∧ x.timestamp < e.timestamp)) = 0 := by
      rw [List.countP_eq_zero]
      intro a ha
      have h := hBscore a (List.mem_of_mem_take ha)
      simp only [decide_eq_true_eq, not_and]
      intro hc
      omega
    have hAc : A.countP (fun x => decide (x.score = e.score ∧ x.timestamp < e.timestamp)) =
        A.countP (fun x => decide (x.score = e.score)) := by
      apply List.countP_congr
      intro x hx
      have h := hts x (hmemA x hx)
      simp only [decide_eq_true_eq]
      constructor
      · exact fun hc => hc.1
      · exact fun hc => ⟨hc, h⟩
    rw [hBk, hAc]
    simp
  have hsplitA : A.countP (fun x => e.score < x.score) +
      A.countP (fun x => x.score = e.score) = A.length := by
    have h := List.length_eq_countP_add_countP (fun x => decide (e.score < x.score)) A
    have hcongr : A.countP (fun x => decide (¬(decide (e.score < x.score) = true))) =
        A.countP (fun x => decide (x.score = e.score)) := by
      apply List.countP_congr
      intro x hx
      have hle := hAscore x hx
      simp only [decide_eq_true_eq]
      constructor
      · intro hnl
        omega
      · intro heq
        omega
    omega
  rw [hrank, hc1, hc2]
  omega

/-- Witness for C1: submitting a fresh score-4 entry onto the two-entry
board (scores 5 and 3), the formula holds. -/
theorem C1_rank_formula_witness :
    (∀ x ∈ twoEntryBoard, x.id ≠ newEntryC1.id) ∧
    (∀ x ∈ twoEntryBoard, x.timestamp < newEntryC1.timestamp) ∧
    newEntryC1 ∈ (submitStep twoEntryBoard newEntryC1).filter
      (fun x => x.gameMode = newEntryC1.gameMode) ∧
    submitRank (submitStep twoEntryBoard newEntryC1) newEntryC1.gameMode
        newEntryC1.id =
      1 + (((submitStep twoEntryBoard newEntryC1).filter
              (fun x => x.gameMode = newEntryC1.gameMode)).countP
            (fun x => newEntryC1.score < x.score) : Int) +
        (((submitStep twoEntryBoard newEntryC1).filter
              (fun x => x.gameMode = newEntryC1.gameMode)).countP
            (fun x => x.score = newEntryC1.score ∧
              x.timestamp < newEntryC1.timestamp) : Int) :=
  ⟨by decide, by decide, by decide,
   C1_rank_formula twoEntryBoard newEntryC1 (by decide) (by decide) (by decide)⟩

/-- C1 counterexample: after fifty score-10 submissions to mode `quick`
(the resulting stored board is computed by the fold in the first conjunct),
a fifty-first submission with score 5 is trimmed away; the handler still
answers 200 with `success: true` but returns rank 0, while the formula of
the claim evaluates to 51 over the post-write snapshot. -/
theorem C1_counterexample_evicted_entry :
    List.foldl submitStep [] fullBoardSubs = fullBoard ∧
    (submitHandler (some lowBody) ⟨fullBoard⟩ 51 51).2 = .success 0 lowEntry ∧
    1 + (((submitStep fullBoard lowEntry).filter
            (fun x => x.gameMode = lowEntry.gameMode)).countP
          (fun x => lowEntry.score < x.score) : Int) +
      (((submitStep fullBoard lowEntry).filter
            (fun x => x.gameMode = lowEntry.gameMode)).countP
          (fun x => x.score = lowEntry.score ∧
            x.timestamp < lowEntry.timestamp) : Int) = 51 ∧
    (0 : Int) ≠ 51 :=
  ⟨by decide, by decide, by decide, by decide⟩

/-- Every entry of the written data was present in the read data or is the
new entry: the trim only ever removes entries. -/
theorem mem_of_mem_submitStep {data : List LBEntry} {e x : LBEntry}
    (hx : x ∈ submitStep data e) : x ∈ data ++ [e] := by
  have hx1 : x ∈ (submitStep data e).filter (fun y => y.gameMode = x.gameMode) :=
    List.mem_filter.mpr ⟨hx, by simp⟩
  rw [submitStep, trimByMode_filter] at hx1
  have hx2 := List.mem_of_mem_take hx1
  have hx3 := (sortByScoreDesc_perm _).mem_iff.mp hx2
  exact (List.mem_filter.mp hx3).1

/-- C7 (amended): a successful submit returns the created entry together
with the rank computed over the written data; that rank is at least 1
whenever the created entry survives the trim, and it is 0 when the entry is
evicted by the trim. -/
theorem C7_rank_bounds (data : List LBEntry) (e : LBEntry)
    (hid : ∀ x ∈ data, x.id ≠ e.id) :
    (e ∈ (submitStep data e).filter (fun x => x.gameMode = e.gameMode) →
      1 ≤ submitRank (submitStep data e) e.gameMode e.id) ∧
    (e ∉ (submitStep data e).filter (fun x => x.gameMode = e.gameMode) →
      submitRank (submitStep data e) e.gameMode e.id = 0) ∧
    (∀ (b : SubmitBody) (store : LeaderboardData) (id ts : Nat) (pn gm : String)
        (sc : Int),
      sanitizePlayerName b.playerName = some pn →
      b.gameMode = .vstr gm →
      isStoredGameMode gm = true →
      sanitizeScore b.score = some sc →
      (submitHandler (some b) store id ts).2 =
        .success (submitRank (submitStep store.entries (createEntry pn gm sc id ts))
          gm id) (createEntry pn gm sc id ts)) := by
  refine ⟨?_, ?_, ?_⟩
  · intro hsurv
    have hmem : e ∈ sortByScoreDesc
        ((submitStep data e).filter (fun x => x.gameMode = e.gameMode)) :=
      (sortByScoreDesc_perm _).mem_iff.mpr hsurv
    cases hf : (sortByScoreDesc
        ((submitStep data e).filter (fun x => x.gameMode = e.gameMode))).findIdx?
        (fun x => decide (x.id = e.id)) with
    | none =>
      have := List.findIdx?_eq_none_iff.mp hf e hmem
      simp at this
    | some i =>
      rw [submitRank, jsFindIndex, hf]
      have hred : (match some i with | some j => (j : Int) | none => -1) = (i : Int) := rfl
      rw [hred]
      omega
  · intro hnot
    have hall : ∀ x ∈ sortByScoreDesc
        ((submitStep data e).filter (fun y => y.gameMode = e.gameMode)),
        (fun y => decide (y.id = e.id)) x = false := by
      intro x hx
      have hx1 : x ∈ (submitStep data e).filter (fun y => y.gameMode = e.gameMode) :=
        (sortByScoreDesc_perm _).mem_iff.mp hx
      have hx2 : x ∈ insertByScoreDesc e
          (sortByScoreDesc (data.filter (fun y => y.gameMode = e.gameMode))) := by
        rw [submitStep_filter] at hx1
        exact List.mem_of_mem_take hx1
      have hx3 := (insertByScoreDesc_perm _ _).mem_iff.mp hx2
      rcases List.mem_cons.mp hx3 with rfl | hx4
      · exact absurd hx1 hnot
      · have hx5 : x ∈ data :=
          (List.mem_filter.mp ((sortByScoreDesc_perm _).mem_iff.mp hx4)).1
        simp [hid x hx5]
    have hf := List.findIdx?_eq_none_iff.mpr hall
    rw [submitRank, jsFindIndex, hf]
    have hred : (match (none : Option Nat) with
        | some j => (j : Int) | none => -1) = (-1 : Int) := rfl
    rw [hred]
    decide
  · intro b store id ts pn gm sc hpn hgm hvalid hsc
    rw [submitHandler]
    simp only [hpn, hgm, hvalid, hsc]
    rfl

/-- Witness for C7: on the two-entry board the fresh entry survives and its
rank is at least 1; the handler answers with exactly that rank and entry. -/
theorem C7_rank_bounds_witness :
    (∀ x ∈ twoEntryBoard, x.id ≠ newEntryC1.id) ∧
    newEntryC1 ∈ (submitStep twoEntryBoard newEntryC1).filter
      (fun x => x.gameMode = newEntryC1.gameMode) ∧
    1 ≤ submitRank (submitStep twoEntryBoard newEntryC1) newEntryC1.gameMode
        newEntryC1.id ∧
    (submitHandler (some ⟨.vstr "c", .vstr "quick", .vnum (.finite 4)⟩)
        ⟨twoEntryBoard⟩ 3 3).2 =
      .success (submitRank (submitStep twoEntryBoard
        (createEntry "c" "quick" 4 3 3)) "quick" 3) (createEntry "c" "quick" 4 3 3) :=
  ⟨by decide, by decide,
   (C7_rank_bounds twoEntryBoard newEntryC1 (by decide)).1 (by decide),
   (C7_rank_bounds twoEntryBoard newEntryC1 (by decide)).2.2
     ⟨.vstr "c", .vstr "quick", .vnum (.finite 4)⟩ ⟨twoEntryBoard⟩ 3 3
     "c" "quick" 4 (by decide) rfl (by decide) (by decide)⟩

/-- C7 counterexample: the fifty-first, lower-scored submission to a full
mode is acknowledged with `success: true` — yet the returned rank is 0,
which is not an integer greater than or equal to 1. -/
theorem C7_counterexample_rank_zero :
    (submitHandler (some lowBody) ⟨fullBoard⟩ 51 51).2 = .success 0 lowEntry ∧
    ¬(1 ≤ (0 : Int)) :=
  ⟨by decide, by decide⟩

/-- The full view order implies tie order. -/
theorem TieOrdered.of_viewOrdered {l : List LBEntry} (h : ViewOrdered l) :
    TieOrdered l := by
  refine h.imp ?_
  intro a b hab heq
  rcases hab with hlt | ⟨_, hts⟩
  · omega
  · exact hts

/-- Per-mode tie order is preserved across any sequence of submissions with
fresh, increasing timestamps. -/
theorem foldl_submitStep_tieOrdered (subs : List LBEntry) :
    ∀ data : List LBEntry,
      (∀ m, TieOrdered (data.filter (fun x => x.gameMode = m))) →
      (∀ x ∈ data, ∀ y ∈ subs, x.timestamp < y.timestamp) →
      subs.Pairwise (fun a b => a.timestamp < b.timestamp) →
      ∀ m, TieOrdered ((subs.foldl submitStep data).filter
        (fun x => x.gameMode = m)) := by
  induction subs with
  | nil =>
    intro data h1 _ _ m
    exact h1 m
  | cons e rest ih =>
    intro data h1 h2 h3 m
    rcases List.pairwise_cons.mp h3 with ⟨h3head, h3tail⟩
    rw [List.foldl_cons]
    have hinv1 : ∀ m, TieOrdered ((submitStep data e).filter
        (fun x => x.gameMode = m)) := by
      intro m
      rw [submitStep, trimByMode_filter]
      have htie : TieOrdered ((data ++ [e]).filter (fun x => x.gameMode = m)) := by
        rw [List.filter_append]
        refine List.pairwise_append.mpr
          ⟨h1 m, List.Pairwise.sublist (List.filter_sublist _) (by simp), ?_⟩
        intro x hx y hy _
        have hx1 : x ∈ data := (List.mem_filter.mp hx).1
        have hy1 : y = e := by
          have := (List.mem_filter.mp hy).1
          simpa using this
        subst hy1
        exact h2 x hx1 y (List.mem_cons_self _ _)
      exact List.Pairwise.sublist (List.take_sublist _ _)
        (TieOrdered.of_viewOrdered (sortByScoreDesc_viewOrdered htie))
    have hinv2 : ∀ x ∈ submitStep data e, ∀ y ∈ rest, x.timestamp < y.timestamp := by
      intro x hx y hy
      rcases List.mem_append.mp (mem_of_mem_submitStep hx) with hx1 | hx1
      · exact h2 x hx1 y (List.mem_cons_of_mem _ hy)
      · have hxe : x = e := by simpa using hx1
        subst hxe
        exact h3head y hy
    exact ih (submitStep data e) hinv1 hinv2 h3tail m

/-- C4 (amended): every leaderboard view is ordered by score descending;
for per-mode views over any store reachable by submissions with strictly
increasing timestamps, equal scores are moreover ordered by timestamp
ascending (earlier submission wins ties, so for two equal-score submissions
the earlier one receives the smaller rank). The aggregate `all` view does
not tie-break by timestamp (see the counterexample). -/
theorem C4_view_ordering :
    (∀ (entries : List LBEntry) (mode : String),
      (queryScores entries mode).Pairwise (fun a b => b.score ≤ a.score)) ∧
    (∀ (subs : List LBEntry) (mode : String),
      subs.Pairwise (fun a b => a.timestamp < b.timestamp) →
      mode ≠ "all" →
      (queryScores (subs.foldl submitStep []) mode).Pairwise
        (fun a b => b.score < a.score ∨ (a.score = b.score ∧ a.date < b.date))) := by
  constructor
  · intro entries mode
    simp only [queryScores, List.enum]
    refine pairwise_map_enumFrom (fun a b : LBEntry => b.score ≤ a.score)
      (fun a b : ScoreRow => b.score ≤ a.score) _ ?_ 0 _ ?_
    · intro i j a b hab
      exact hab
    · exact List.Pairwise.sublist (List.take_sublist _ _) (sortByScoreDesc_sorted _)
  · intro subs mode hsubs hmode
    have htie : TieOrdered ((subs.foldl submitStep []).filter
        (fun x => x.gameMode = mode)) :=
      foldl_submitStep_tieOrdered subs [] (by simp) (by simp) hsubs mode
    have hview : ViewOrdered ((sortByScoreDesc ((subs.foldl submitStep []).filter
        (fun x => x.gameMode = mode))).take 50) :=
      List.Pairwise.sublist (List.take_sublist _ _) (sortByScoreDesc_viewOrdered htie)
    simp only [queryScores, List.enum, if_neg hmode]
    refine pairwise_map_enumFrom
      (fun a b : LBEntry =>
        b.score < a.score ∨ (a.score = b.score ∧ a.timestamp < b.timestamp))
      (fun a b : ScoreRow => b.score < a.score ∨ (a.score = b.score ∧ a.date < b.date))
      _ ?_ 0 _ hview
    intro i j a b hab
    exact hab

/-- Witness for C4 (scenario C): two submissions with identical score 50 at
timestamps 1 < 2 produce a view whose rank-1 row has the earlier date. -/
theorem C4_view_ordering_witness :
    List.Pairwise (fun a b : LBEntry => a.timestamp < b.timestamp)
      [{ id := 1, playerName := "p", gameMode := "quick", score := 50,
         timestamp := 1 : LBEntry },
       { id := 2, playerName := "q", gameMode := "quick", score := 50,
         timestamp := 2 : LBEntry }] ∧
    ("quick" : String) ≠ "all" ∧
    (queryScores
      ([{ id := 1, playerName := "p", gameMode := "quick", score := 50,
          timestamp := 1 : LBEntry },
        { id := 2, playerName := "q", gameMode := "quick", score := 50,
          timestamp := 2 : LBEntry }].foldl submitStep []) "quick").Pairwise
      (fun a b => b.score < a.score ∨ (a.score = b.score ∧ a.date < b.date)) ∧
    queryScores
      ([{ id := 1, playerName := "p", gameMode := "quick", score := 50,
          timestamp := 1 : LBEntry },
        { id := 2, playerName := "q", gameMode := "quick", score := 50,
          timestamp := 2 : LBEntry }].foldl submitStep []) "quick" =
      [{ playerName := "p", score := 50, date := 1, gameMode := "quick", rank := 1 },
       { playerName := "q", score := 50, date := 2, gameMode := "quick", rank := 2 }] :=
  ⟨by decide, by decide,
   C4_view_ordering.2
     [{ id := 1, playerName := "p", gameMode := "quick", score := 50,
        timestamp := 1 : LBEntry },
      { id := 2, playerName := "q", gameMode := "quick", score := 50,
        timestamp := 2 : LBEntry }] "quick" (by decide) (by decide),
   by decide⟩

/-- C4 counterexample: after the three submissions of `crossModeRun`
(scores 10, 50, 50 at timestamps 1, 2, 3, across two modes), the aggregate
`all` view places the timestamp-3 entry at rank 1 and the equal-scored
timestamp-2 entry at rank 2 — equal scores in timestamp-descending order,
violating the claimed ordering of every view. -/
theorem C4_counterexample_aggregate_ties :
    queryScores crossModeRun "all" =
      [{ playerName := "p", score := 50, date := 3, gameMode := "quick", rank := 1 },
       { playerName := "p", score := 50, date := 2, gameMode := "endless", rank := 2 },
       { playerName := "p", score := 10, date := 1, gameMode := "quick", rank := 3 }] ∧
    ¬ (queryScores crossModeRun "all").Pairwise
      (fun a b => b.score < a.score ∨ (a.score = b.score ∧ a.date < b.date)) :=
  ⟨by decide, by decide⟩

/-- C5 (amended): the blob backend has no optimistic concurrency at all.
The write ignores the current store state entirely (there is no version
token and no condition), always succeeds by replacing the whole document,
and never reports a conflict; consequently, a writer that computed from a
stale read silently discards every concurrently committed entry its read
did not contain — no retry and no WriteConflict error exist anywhere. -/
theorem C5_unconditional_overwrite :
    (∀ (cur cur2 : Option LeaderboardData) (d : LeaderboardData),
      saveLeaderboardData cur d = saveLeaderboardData cur2 d) ∧
    (∀ (cur : Option LeaderboardData) (d : LeaderboardData),
      saveLeaderboardData cur d = some d) ∧
    (∀ (read : List LBEntry) (eA eB : LBEntry),
      (∀ x ∈ read, x.id ≠ eA.id) → eA.id ≠ eB.id →
      eA ∉ submitStep read eB) := by
  refine ⟨fun _ _ _ => rfl, fun _ _ => rfl, ?_⟩
  intro read eA eB hid hne hmem
  rcases List.mem_append.mp (mem_of_mem_submitStep hmem) with h | h
  · exact hid eA h rfl
  · have : eA = eB := by simpa using h
    exact hne (congrArg LBEntry.id this)

/-- Witness for C5: B recomputes from the shared empty read; A's entry is
not in B's written document. -/
theorem C5_unconditional_overwrite_witness :
    (∀ x ∈ ([] : List LBEntry), x.id ≠ (createEntry "alice" "quick" 100 1 1).id) ∧
    (createEntry "alice" "quick" 100 1 1).id ≠ (createEntry "bob" "quick" 90 2 2).id ∧
    createEntry "alice" "quick" 100 1 1 ∉
      submitStep [] (createEntry "bob" "quick" 90 2 2) :=
  ⟨by decide, by decide,
   C5_unconditional_overwrite.2.2 [] (createEntry "alice" "quick" 100 1 1)
     (createEntry "bob" "quick" 90 2 2) (by decide) (by decide)⟩

/-- C5 counterexample: a concrete two-writer race against the actual write
path. Both writers read the empty document; Alice commits first and is
acknowledged with `success: true`; Bob then commits the document he
computed from the now-stale read. Under the claim, Bob's write is
conditioned on an unchanged version, so it would retry from a fresh read or
fail with WriteConflict leaving his entry unstored. In the code, Bob's
write replaces the document unconditionally and succeeds, and Alice's
acknowledged entry is absent from the final store — no conflict error was
ever produced. -/
theorem C5_counterexample_lost_update :
    (submitHandler (some raceBodyA) ⟨[]⟩ 1 1).2 =
      .success 1 (createEntry "alice" "quick" 100 1 1) ∧
    (submitHandler (some raceBodyB) ⟨[]⟩ 2 2).2 =
      .success 1 (createEntry "bob" "quick" 90 2 2) ∧
    saveLeaderboardData
        (saveLeaderboardData (some ⟨[]⟩) (submitHandler (some raceBodyA) ⟨[]⟩ 1 1).1)
        (submitHandler (some raceBodyB) ⟨[]⟩ 2 2).1 =
      some (submitHandler (some raceBodyB) ⟨[]⟩ 2 2).1 ∧
    createEntry "alice" "quick" 100 1 1 ∉
      (submitHandler (some raceBodyB) ⟨[]⟩ 2 2).1.entries :=
  ⟨by decide, by decide, rfl, by decide⟩

end Swolecast
